import Mathlib

/-!
Verification of the offline-first synchronization engine of the
Training_Journal repository (a personal training-journal application).

The development shallowly embeds the code paths relevant to the sync
engine:

* `src/db.py` — the record store and sync primitives:
  `local_changes_since`, `upsert_many` (the live definition, lines
  220-271), `soft_delete_by_uuid`, `insert_session`, and the
  `sync_state` cursor table (modelled as two fields of `DB`).
* `src/sync_screen.py` and `src/ui/sync_screen.py` — the push-then-pull
  variant of `sync_now` (the two files contain the same engine logic).
* `src/sync.py` — the pull-then-push variant of `sync_now`.
* `src/log_screen.py` — the submit path of `render_log_screen`
  (validation before persistence).

Timestamps (`updated_at`, the two cursors) are SQLite TEXT values
compared byte-wise by SQLite's `>` and by Python's `max`; for the ASCII
timestamp strings the code produces this is exactly lexicographic
comparison of the character lists, which is what `tsLt` computes.
`tsLt` agrees with Mathlib's linear order on `String`
(`String.lt_iff_toList_lt`), which the theorem statements use.
-/

/-- Strict byte-wise (lexicographic) comparison of two timestamp
strings, as performed by SQLite's `>` on TEXT values and by Python's
`max` over strings. -/
def tsLt (a b : String) : Prop :=
  a.toList < b.toList

instance (a b : String) : Decidable (tsLt a b) :=
  inferInstanceAs (Decidable (a.toList < b.toList))

/-- Binary maximum as computed by Python's `max` on strings (returns
the second argument only when it is strictly greater). -/
def tsMax (a b : String) : String :=
  if tsLt a b then b else a

/-- One row of the `training_sessions` table, restricted to the nine
columns the sync engine reads and writes (`src/db.py`,
`local_changes_since` / `upsert_many`).  The autoincrement `id` and
`created_at` take no part in synchronization. -/
structure SessionRecord where
  session_date : String
  activity_type : String
  duration_minutes : Int
  energy_level : Int
  session_emphasis : String
  notes : Option String
  uuid : String
  deleted : Nat
  updated_at : String
deriving DecidableEq

/-- Maximum of the `updated_at` fields of a batch:
`max(x["updated_at"] for x in items)` in the Python sources.  For a
non-empty batch folding from `""` (the least string) agrees with
Python's `max` of the non-empty iterable. -/
def maxUpdated (items : List SessionRecord) : String :=
  (items.map (fun r => r.updated_at)).foldl tsMax ""

/-- `db.local_changes_since` (`src/db.py` lines 203-218): all rows with
`updated_at > ts`, tombstones included. -/
def local_changes_since (ts : String) (store : List SessionRecord) :
    List SessionRecord :=
  store.filter (fun r => decide (tsLt ts r.updated_at))

/-- The `INSERT ... ON CONFLICT(uuid) DO UPDATE ... WHERE
excluded.updated_at > training_sessions.updated_at` statement executed
by `db.upsert_many` for a non-tombstone item (`src/db.py` lines
237-265).  A fresh row, and the updated row, always store `deleted = 0`
(both the VALUES list and the DO UPDATE SET clause write the literal
0). -/
def upsert_sql (store : List SessionRecord) (it : SessionRecord) :
    List SessionRecord :=
  match store.find? (fun r => decide (r.uuid = it.uuid)) with
  | none => store ++ [{ it with deleted := 0 }]
  | some _ =>
      store.map (fun r =>
        if r.uuid = it.uuid ∧ tsLt r.updated_at it.updated_at then
          { it with deleted := 0 }
        else r)

/-- Loop body of `db.upsert_many` (`src/db.py` lines 227-266): a remote
tombstone (`deleted == 1`) physically deletes the matching row and is
not counted (`continue`); any other item runs the upsert statement and
increments the count unconditionally. -/
def upsert_many_step (acc : Nat × List SessionRecord)
    (it : SessionRecord) : Nat × List SessionRecord :=
  if it.deleted = 1 then
    (acc.1, acc.2.filter (fun r => decide (r.uuid ≠ it.uuid)))
  else
    (acc.1 + 1, upsert_sql acc.2 it)

/-- `db.upsert_many` (`src/db.py` lines 220-271): fold the loop body
over the batch, starting from count 0 and the current store; returns
the count and the new store. -/
def upsert_many (items : List SessionRecord)
    (store : List SessionRecord) : Nat × List SessionRecord :=
  items.foldl upsert_many_step (0, store)

/-- `db.soft_delete_by_uuid` (`src/db.py` lines 319-333): `UPDATE
training_sessions SET deleted = 1, updated_at = now WHERE uuid = ?`. -/
def soft_delete_by_uuid (now : String) (u : String)
    (store : List SessionRecord) : List SessionRecord :=
  store.map (fun r =>
    if r.uuid = u then { r with deleted := 1, updated_at := now } else r)

/-- Input dictionary of `db.insert_session`; `uuid` and `updated_at`
may be absent (the UI never passes them). -/
structure NewSession where
  session_date : String
  activity_type : String
  duration_minutes : Int
  energy_level : Int
  session_emphasis : String
  notes : Option String
  uuid : Option String
  updated_at : Option String

/-- Python's `session.get(key) or fallback`: the fallback is used when
the key is absent or its value is falsy (the empty string). -/
def orElseFresh (v : Option String) (fresh : String) : String :=
  match v with
  | none => fresh
  | some s => if s = "" then fresh else s

/-- `db.insert_session` (`src/db.py` lines 151-185): inserts one row
with `deleted = 0`, generating `uuid` and `updated_at` when absent. -/
def insert_session (fresh now : String) (s : NewSession)
    (store : List SessionRecord) : List SessionRecord :=
  store ++
    [{ session_date := s.session_date
       activity_type := s.activity_type
       duration_minutes := s.duration_minutes
       energy_level := s.energy_level
       session_emphasis := s.session_emphasis
       notes := s.notes
       uuid := orElseFresh s.uuid fresh
       deleted := 0
       updated_at := orElseFresh s.updated_at now }]

/-- The `training_sessions` table carries a unique index on `uuid`
(`src/db.py` lines 65-68); stores reachable by the application satisfy
this. -/
def uuidUnique (store : List SessionRecord) : Prop :=
  (store.map (fun r => r.uuid)).Nodup

instance (store : List SessionRecord) : Decidable (uuidUnique store) :=
  inferInstanceAs
    (Decidable ((store.map (fun r : SessionRecord => r.uuid)).Nodup))

/-- Local persistent state: the `training_sessions` table plus the two
rows of the `sync_state` table (`src/db.py`, `_ensure_sync_state`,
`get_state`, `set_state`). -/
structure DB where
  sessions : List SessionRecord
  last_push : String
  last_pull : String
deriving DecidableEq

/-- The two kinds of network requests a sync pass can issue. -/
inductive SyncEvent where
  | pushReq
  | pullReq
deriving DecidableEq

/-- Responses of the remote endpoint for the (at most) one POST and one
GET a sync pass performs.  `none` models any transport-level failure:
non-2xx status or a non-JSON body, both of which raise in the Python
sources.  `pushResp` is the parsed `upserted` field of the POST
response; `pullResp` is the parsed record array of the GET response. -/
structure Transport where
  pushResp : Option Nat
  pullResp : Option (List SessionRecord)

/-- Result dictionary returned by `sync_now` on success. -/
structure SyncSummary where
  pushed : Nat
  pulled : Nat
  upserted_locally : Nat
deriving DecidableEq

/-- Outcome of one phase: the store state when the phase ends, the
phase's value (`none` when the phase raised), and the network requests
it issued in order. -/
structure PhaseResult (α : Type) where
  db : DB
  result : Option α
  trace : List SyncEvent

/-- Outcome of one full sync pass: the store state when the pass ends
(the SQLite file keeps all writes made before an exception), the
returned summary (`none` when the pass raised), and the network
requests issued in order. -/
structure SyncOutcome where
  db : DB
  result : Option SyncSummary
  trace : List SyncEvent

/-- Push block of `sync_now` (`src/sync_screen.py` lines 30-48,
`src/ui/sync_screen.py` lines 27-45, `src/sync.py` lines 40-58): read
`last_push`, compute the local changes; when non-empty POST them, and
on a well-formed response record the server's `upserted` count and
advance `last_push` to the maximum `updated_at` among the pushed
items.  An empty batch skips the network call and leaves the cursor
untouched. -/
def pushPhase (t : Transport) (db : DB) : PhaseResult Nat :=
  let to_push := local_changes_since db.last_push db.sessions
  if to_push = [] then
    { db := db, result := some 0, trace := [] }
  else
    match t.pushResp with
    | none => { db := db, result := none, trace := [SyncEvent.pushReq] }
    | some upserted =>
        { db := { db with last_push := maxUpdated to_push }
          result := some upserted
          trace := [SyncEvent.pushReq] }

/-- Pull block of `sync_now` (`src/sync_screen.py` lines 51-70,
`src/ui/sync_screen.py` lines 48-64, `src/sync.py` lines 21-37): read
`last_pull`, GET the remote changes; on a well-formed response apply
them via `upsert_many` and, when the batch is non-empty, advance
`last_pull` to the maximum `updated_at` among the received items.  The
phase value pairs the number of received items with the count returned
by `upsert_many`. -/
def pullPhase (t : Transport) (db : DB) : PhaseResult (Nat × Nat) :=
  match t.pullResp with
  | none => { db := db, result := none, trace := [SyncEvent.pullReq] }
  | some items =>
      let res := upsert_many items db.sessions
      let db1 := { db with sessions := res.2 }
      let db2 :=
        if items = [] then db1
        else { db1 with last_pull := maxUpdated items }
      { db := db2, result := some (items.length, res.1)
        trace := [SyncEvent.pullReq] }

/-- `sync_now` of `src/sync_screen.py` (lines 17-76) and
`src/ui/sync_screen.py` (lines 17-70), whose engine logic is
identical: PUSH block first, then PULL block; an exception in the push
block propagates before the pull block starts. -/
def sync_now (t : Transport) (db : DB) : SyncOutcome :=
  let p := pushPhase t db
  match p.result with
  | none => { db := p.db, result := none, trace := p.trace }
  | some pushed =>
      let q := pullPhase t p.db
      match q.result with
      | none => { db := q.db, result := none, trace := p.trace ++ q.trace }
      | some pr =>
          { db := q.db
            result := some { pushed := pushed, pulled := pr.1
                             upserted_locally := pr.2 }
            trace := p.trace ++ q.trace }

/-- `sync_now` of `src/sync.py` (lines 11-64): the same two blocks in
the opposite order — the comment in the source reads "PULL FIRST" /
"PUSH SECOND". -/
def sync_now_pull_first (t : Transport) (db : DB) : SyncOutcome :=
  let q := pullPhase t db
  match q.result with
  | none => { db := q.db, result := none, trace := q.trace }
  | some pr =>
      let p := pushPhase t q.db
      match p.result with
      | none => { db := p.db, result := none, trace := q.trace ++ p.trace }
      | some pushed =>
          { db := p.db
            result := some { pushed := pushed, pulled := pr.1
                             upserted_locally := pr.2 }
            trace := q.trace ++ p.trace }

/-- A trace satisfies push-before-pull when every push request precedes
every pull request, i.e. once a pull request occurs only pull requests
follow. -/
def pushesPrecedePulls : List SyncEvent → Bool
  | [] => true
  | SyncEvent.pushReq :: rest => pushesPrecedePulls rest
  | SyncEvent.pullReq :: rest =>
      rest.all (fun e => decide (e = SyncEvent.pullReq))

/-- `ENERGY_MAP` of `src/domain/models.py`; `none` models the `KeyError`
of an unknown label (the radio widget only offers the five labels). -/
def ENERGY_MAP (label : String) : Option Int :=
  if label = "Very tired" then some 1
  else if label = "Tired" then some 2
  else if label = "OK" then some 3
  else if label = "Good" then some 4
  else if label = "Sharp" then some 5
  else none

/-- The submitted state of the log form (`src/log_screen.py`): the
widgets bound inside `st.form("log_form")`.  `duration_minutes` is the
number input (bounded 0-300 by the widget). -/
structure LogForm where
  session_date : String
  activity_type : String
  duration_minutes : Int
  energy_label : String
  session_emphasis : String
  notes : String

/-- Submit path of `render_log_screen` (`src/log_screen.py` lines
60-82): a non-rest activity with duration below 5 minutes is rejected
(`st.error`, early return) before `insert_session` runs; otherwise
the session dictionary is persisted.  Returns the store and whether a
row was written. -/
def render_log_submit (fresh now : String) (form : LogForm)
    (store : List SessionRecord) : List SessionRecord × Bool :=
  if form.activity_type ≠ "rest" ∧ form.duration_minutes < 5 then
    (store, false)
  else
    (insert_session fresh now
      { session_date := form.session_date
        activity_type := form.activity_type
        duration_minutes := form.duration_minutes
        energy_level := (ENERGY_MAP form.energy_label).getD 0
        session_emphasis := form.session_emphasis
        notes := some form.notes
        uuid := none
        updated_at := none } store, true)

/-- A concrete session row used by the concrete instantiations below:
uuid `u`, timestamp `ts`, tombstone flag `d`. -/
def mkRow (u ts : String) (d : Nat) : SessionRecord :=
  { session_date := "2024-05-01"
    activity_type := "karate"
    duration_minutes := 30
    energy_level := 3
    session_emphasis := "technical"
    notes := none
    uuid := u
    deleted := d
    updated_at := ts }

/-- Transport whose pull returns one record strictly older than the
`last_pull` cursor of `dbC6`. -/
def tC6 : Transport :=
  { pushResp := some 0, pullResp := some [mkRow "u" "a" 0] }

/-- A store with nothing to push and `last_pull` ahead of the record
served by `tC6`. -/
def dbC6 : DB :=
  { sessions := [], last_push := "b", last_pull := "b" }

/-- A transport that accepts the push and serves an empty pull. -/
def tOk : Transport := { pushResp := some 1, pullResp := some [] }

/-- A transport on which both requests fail. -/
def tFail : Transport := { pushResp := none, pullResp := none }

/-- A store with one never-pushed row (`updated_at = "b"`) and both
cursors at `"a"`. -/
def dbOne : DB :=
  { sessions := [mkRow "u" "b" 0], last_push := "a", last_pull := "a" }

/-! Helper lemmas -/

/-- `tsLt` is exactly Mathlib's strict order on `String`. -/
theorem tsLt_iff (a b : String) : tsLt a b ↔ a < b :=
  (String.lt_iff_toList_lt).symm

/-- Convenience constructor for concrete strict string comparisons. -/
theorem str_lt_of_toList {a b : String} (h : a.toList < b.toList) : a < b :=
  String.lt_iff_toList_lt.mpr h

theorem tsMax_eq_max (a b : String) : tsMax a b = max a b := by
  unfold tsMax
  by_cases h : tsLt a b
  · rw [if_pos h, max_eq_right (le_of_lt ((tsLt_iff a b).mp h))]
  · rw [if_neg h]
    rcases le_total a b with hab | hba
    · rcases lt_or_eq_of_le hab with hlt | heq
      · exact absurd ((tsLt_iff a b).mpr hlt) h
      · rw [heq, max_self]
    · rw [max_eq_left hba]

theorem init_le_foldl_max {α : Type} [LinearOrder α] :
    ∀ (l : List α) (init : α), init ≤ l.foldl max init := by
  intro l
  induction l with
  | nil => intro init; exact le_refl init
  | cons b bs ih =>
      intro init
      exact le_trans (le_max_left init b) (ih (max init b))

theorem mem_le_foldl_max {α : Type} [LinearOrder α] :
    ∀ (l : List α) (init a : α), a ∈ l → a ≤ l.foldl max init := by
  intro l
  induction l with
  | nil => intro init a h; cases h
  | cons b bs ih =>
      intro init a h
      rcases List.mem_cons.mp h with rfl | hmem
      · exact le_trans (le_max_right init a) (init_le_foldl_max bs (max init a))
      · exact ih (max init b) a hmem

theorem maxUpdated_eq_foldl_max (items : List SessionRecord) :
    maxUpdated items = (items.map (fun r => r.updated_at)).foldl max "" := by
  have hfun : tsMax = fun a b => max a b :=
    funext fun a => funext fun b => tsMax_eq_max a b
  rw [maxUpdated, hfun]

theorem mem_le_maxUpdated {r : SessionRecord} {items : List SessionRecord}
    (h : r ∈ items) : r.updated_at ≤ maxUpdated items := by
  rw [maxUpdated_eq_foldl_max]
  exact mem_le_foldl_max _ "" r.updated_at
    (List.mem_map.mpr ⟨r, h, rfl⟩)

theorem mem_local_changes_since {r : SessionRecord} {ts : String}
    {store : List SessionRecord} :
    r ∈ local_changes_since ts store ↔ r ∈ store ∧ ts < r.updated_at := by
  rw [local_changes_since, List.mem_filter, decide_eq_true_eq, tsLt_iff]

theorem uuidUnique_eq_of_mem {store : List SessionRecord}
    (hu : uuidUnique store) {a b : SessionRecord}
    (ha : a ∈ store) (hb : b ∈ store) (h : a.uuid = b.uuid) : a = b :=
  List.inj_on_of_nodup_map hu ha hb h

theorem find?_uuid_eq_none {store : List SessionRecord} {u : String} :
    store.find? (fun r => decide (r.uuid = u)) = none ↔
      ∀ r ∈ store, r.uuid ≠ u := by
  rw [List.find?_eq_none]
  constructor
  · intro h r hr
    have := h r hr
    rw [decide_eq_true_eq] at this
    intro he
    exact this he
  · intro h r hr
    rw [decide_eq_true_eq]
    exact h r hr

theorem pushPhase_of_empty {t : Transport} {db : DB}
    (h : local_changes_since db.last_push db.sessions = []) :
    pushPhase t db = { db := db, result := some 0, trace := [] } := by
  simp [pushPhase, h]

theorem pushPhase_of_fail {t : Transport} {db : DB}
    (h : local_changes_since db.last_push db.sessions ≠ [])
    (hp : t.pushResp = none) :
    pushPhase t db =
      { db := db, result := none, trace := [SyncEvent.pushReq] } := by
  rw [pushPhase]
  simp only [if_neg h, hp]

theorem pushPhase_of_ok {t : Transport} {db : DB} {n : Nat}
    (h : local_changes_since db.last_push db.sessions ≠ [])
    (hp : t.pushResp = some n) :
    pushPhase t db =
      { db := { db with
          last_push := maxUpdated (local_changes_since db.last_push db.sessions) }
        result := some n
        trace := [SyncEvent.pushReq] } := by
  rw [pushPhase]
  simp only [if_neg h, hp]

theorem pullPhase_of_fail {t : Transport} {db : DB}
    (hq : t.pullResp = none) :
    pullPhase t db =
      { db := db, result := none, trace := [SyncEvent.pullReq] } := by
  rw [pullPhase, hq]

theorem pullPhase_of_ok {t : Transport} {db : DB}
    {items : List SessionRecord} (hq : t.pullResp = some items) :
    pullPhase t db =
      { db :=
          if items = [] then
            { db with sessions := (upsert_many items db.sessions).2 }
          else
            { db with sessions := (upsert_many items db.sessions).2
                      last_pull := maxUpdated items }
        result := some (items.length, (upsert_many items db.sessions).1)
        trace := [SyncEvent.pullReq] } := by
  rw [pullPhase, hq]

theorem pullPhase_last_push (t : Transport) (db : DB) :
    (pullPhase t db).db.last_push = db.last_push := by
  rw [pullPhase]
  cases t.pullResp with
  | none => rfl
  | some items =>
      by_cases h : items = []
      · simp only [if_pos h]
      · simp only [if_neg h]

theorem pushPhase_sessions (t : Transport) (db : DB) :
    (pushPhase t db).db.sessions = db.sessions := by
  rw [pushPhase]
  by_cases h : local_changes_since db.last_push db.sessions = []
  · simp only [if_pos h]
  · simp only [if_neg h]
    cases t.pushResp with
    | none => rfl
    | some n => rfl

theorem pushPhase_last_pull (t : Transport) (db : DB) :
    (pushPhase t db).db.last_pull = db.last_pull := by
  rw [pushPhase]
  by_cases h : local_changes_since db.last_push db.sessions = []
  · simp only [if_pos h]
  · simp only [if_neg h]
    cases t.pushResp with
    | none => rfl
    | some n => rfl

/-! Claim theorems -/

/-- C8: calling `soft_delete_by_uuid` twice on the same identity yields
the same store as calling it once, up to `last_modified` which is set
to the current time of each call; after a call every row with the
identity has `deleted = 1` and `updated_at` set to that call's time;
a call whose identity matches no row is a silent no-op; and a matching
row is re-written with all other fields unchanged. -/
theorem soft_delete_idempotent (now1 now2 u : String)
    (store : List SessionRecord) :
    soft_delete_by_uuid now2 u (soft_delete_by_uuid now1 u store) =
      soft_delete_by_uuid now2 u store
    ∧ (∀ s ∈ soft_delete_by_uuid now1 u store,
        s.uuid = u → s.deleted = 1 ∧ s.updated_at = now1)
    ∧ ((∀ s ∈ store, s.uuid ≠ u) →
        soft_delete_by_uuid now1 u store = store)
    ∧ (∀ s ∈ store, s.uuid = u →
        { s with deleted := 1, updated_at := now1 } ∈
          soft_delete_by_uuid now1 u store) := by
  refine ⟨?_, ?_, ?_, ?_⟩
  · simp only [soft_delete_by_uuid, List.map_map]
    apply List.map_congr_left
    intro r _
    by_cases h : r.uuid = u
    · simp [Function.comp, h]
    · simp [Function.comp, h]
  · intro s hs hsu
    rw [soft_delete_by_uuid] at hs
    rcases List.mem_map.mp hs with ⟨r, hr, hrs⟩
    by_cases h : r.uuid = u
    · rw [if_pos h] at hrs
      rw [← hrs]
      exact ⟨rfl, rfl⟩
    · rw [if_neg h] at hrs
      rw [← hrs] at hsu
      exact absurd hsu h
  · intro hall
    rw [soft_delete_by_uuid]
    conv_rhs => rw [← List.map_id store]
    apply List.map_congr_left
    intro r hr
    rw [if_neg (hall r hr)]
    rfl
  · intro s hs hsu
    rw [soft_delete_by_uuid]
    exact List.mem_map.mpr ⟨s, hs, by rw [if_pos hsu]⟩

/-- Witness for C8 at concrete stores: a no-op delete on a store whose
only row has a different identity, and the rewritten row of a matching
delete. -/
theorem soft_delete_idempotent_witness :
    soft_delete_by_uuid "b" "u" [mkRow "v" "a" 0] = [mkRow "v" "a" 0]
    ∧ { mkRow "u" "a" 0 with deleted := 1, updated_at := "b" } ∈
        soft_delete_by_uuid "b" "u" [mkRow "u" "a" 0] :=
  ⟨(soft_delete_idempotent "b" "c" "u" [mkRow "v" "a" 0]).2.2.1 (by decide),
   (soft_delete_idempotent "b" "c" "u" [mkRow "u" "a" 0]).2.2.2
     (mkRow "u" "a" 0) (by decide) (by decide)⟩

/-- C9: a submitted session with a non-rest activity and
`duration_minutes < 5` is rejected by the validation in
`render_log_screen` before `insert_session` runs: the store is
unchanged and no row is written. -/
theorem validation_blocks_short_sessions (fresh now : String)
    (form : LogForm) (store : List SessionRecord)
    (ha : form.activity_type ≠ "rest") (hd : form.duration_minutes < 5) :
    render_log_submit fresh now form store = (store, false) := by
  rw [render_log_submit, if_pos ⟨ha, hd⟩]

/-- Witness for C9: a 3-minute karate session is rejected and the
store stays empty. -/
theorem validation_blocks_short_sessions_witness :
    render_log_submit "f" "a"
        { session_date := "2024-05-01", activity_type := "karate"
          duration_minutes := 3, energy_label := "OK"
          session_emphasis := "technical", notes := "" } [] =
      ([], false) :=
  validation_blocks_short_sessions "f" "a" _ [] (by decide) (by decide)

theorem upsert_many_count_aux (items : List SessionRecord) :
    ∀ (n : Nat) (store : List SessionRecord),
      (items.foldl upsert_many_step (n, store)).1 =
        n + (items.filter (fun it => decide (¬ it.deleted = 1))).length := by
  induction items with
  | nil => intro n store; simp
  | cons it its ih =>
      intro n store
      rw [List.foldl_cons]
      by_cases h : it.deleted = 1
      · rw [show upsert_many_step (n, store) it =
              (n, store.filter (fun r => decide (r.uuid ≠ it.uuid))) from by
            rw [upsert_many_step, if_pos h]]
        rw [ih n _]
        simp [List.filter_cons, h]
      · rw [show upsert_many_step (n, store) it =
              (n + 1, upsert_sql store it) from by
            rw [upsert_many_step, if_neg h]]
        rw [ih (n + 1) _]
        simp [List.filter_cons, h]
        omega

/-- C3 (amended): `upsert_many` returns the number of non-tombstone
records in the batch — every non-tombstone record is counted whether or
not its upsert statement changed a row, so records silently skipped as
stale are counted too; tombstone deletions are not counted; skipping
never raises (the function is total). -/
theorem upsert_many_count (items store : List SessionRecord) :
    (upsert_many items store).1 =
      (items.filter (fun it => decide (¬ it.deleted = 1))).length := by
  rw [upsert_many, upsert_many_count_aux items 0 store, Nat.zero_add]

/-- Counterexample for C3 as stated: a batch holding one stale record
(`updated_at = "a"`, older than the stored `"b"`) leaves the store
unchanged — zero rows are actually inserted or updated — yet
`upsert_many` returns 1, so skipped-as-stale records are counted. -/
theorem upsert_many_counts_stale_skip :
    (upsert_many [mkRow "u" "a" 0] [mkRow "u" "b" 0]).1 = 1
    ∧ (upsert_many [mkRow "u" "a" 0] [mkRow "u" "b" 0]).2 =
        [mkRow "u" "b" 0] :=
  ⟨rfl, rfl⟩

/-- C7: a locally tombstoned record is reported by
`local_changes_since` for every cursor strictly below its
`updated_at`; applying a batch holding a tombstone removes every row
with the matching identity from the store, without error, and is a
no-op when no such row exists. -/
theorem tombstone_propagation :
    (∀ (ts : String) (r : SessionRecord) (store : List SessionRecord),
       r ∈ store → r.deleted = 1 → ts < r.updated_at →
       r ∈ local_changes_since ts store)
    ∧ (∀ (it : SessionRecord) (store : List SessionRecord),
        it.deleted = 1 →
        (∀ s ∈ (upsert_many [it] store).2, s.uuid ≠ it.uuid)
        ∧ ((∀ s ∈ store, s.uuid ≠ it.uuid) →
            upsert_many [it] store = (0, store))) := by
  constructor
  · intro ts r store hmem _ hlt
    exact mem_local_changes_since.mpr ⟨hmem, hlt⟩
  · intro it store h
    have hstep : upsert_many [it] store =
        (0, store.filter (fun r => decide (r.uuid ≠ it.uuid))) := by
      rw [upsert_many, List.foldl_cons, List.foldl_nil, upsert_many_step,
        if_pos h]
    constructor
    · intro s hs
      rw [hstep] at hs
      have := (List.mem_filter.mp hs).2
      rwa [decide_eq_true_eq] at this
    · intro hall
      rw [hstep]
      have : store.filter (fun r => decide (r.uuid ≠ it.uuid)) = store := by
        apply List.filter_eq_self.mpr
        intro a ha
        rw [decide_eq_true_eq]
        exact hall a ha
      rw [this]

/-- Witness for C7: a tombstoned row with timestamp `"b"` is reported
from cursor `"a"`, and a tombstone batch on an empty store is a
counted-as-zero no-op. -/
theorem tombstone_propagation_witness :
    mkRow "u" "b" 1 ∈ local_changes_since "a" [mkRow "u" "b" 1]
    ∧ upsert_many [mkRow "u" "b" 1] [] = (0, []) :=
  ⟨tombstone_propagation.1 "a" (mkRow "u" "b" 1) [mkRow "u" "b" 1]
      (by decide) rfl (str_lt_of_toList (by decide)),
   (tombstone_propagation.2 (mkRow "u" "b" 1) [] rfl).2 (by decide)⟩

/-- C10: the non-tombstone path of `upsert_many` always writes
`deleted = 0`: every row of the store after applying a non-tombstone
record is either a pre-existing row or carries `deleted = 0`; a fresh
insert stores the record with `deleted = 0`; and a strictly newer
record replaces a matching stored row — even a locally tombstoned one,
which it thereby revives — with the stored copy carrying
`deleted = 0`. -/
theorem upsert_nondeleted_clears_tombstone (it : SessionRecord)
    (store : List SessionRecord) (hnt : ¬ it.deleted = 1) :
    (∀ s ∈ (upsert_many [it] store).2, s ∈ store ∨ s.deleted = 0)
    ∧ (store.find? (fun r => decide (r.uuid = it.uuid)) = none →
        upsert_many [it] store = (1, store ++ [{ it with deleted := 0 }]))
    ∧ (∀ s ∈ store, s.uuid = it.uuid → s.updated_at < it.updated_at →
        { it with deleted := 0 } ∈ (upsert_many [it] store).2
        ∧ s ∉ (upsert_many [it] store).2) := by
  have hstep : upsert_many [it] store = (1, upsert_sql store it) := by
    rw [upsert_many, List.foldl_cons, List.foldl_nil, upsert_many_step,
      if_neg hnt]
  refine ⟨?_, ?_, ?_⟩
  · intro s hs
    rw [hstep] at hs
    rw [upsert_sql] at hs
    rcases hfind : store.find? (fun r => decide (r.uuid = it.uuid)) with
      _ | y
    · rw [hfind] at hs
      rcases List.mem_append.mp hs with hl | hr
      · exact Or.inl hl
      · right
        rw [List.mem_singleton.mp hr]
    · rw [hfind] at hs
      rcases List.mem_map.mp hs with ⟨r, hr, hrs⟩
      by_cases hc : r.uuid = it.uuid ∧ tsLt r.updated_at it.updated_at
      · rw [if_pos hc] at hrs
        right
        rw [← hrs]
      · rw [if_neg hc] at hrs
        exact Or.inl (hrs ▸ hr)
  · intro hfind
    rw [hstep, upsert_sql, hfind]
  · intro s hs huuid hlt
    rcases hfind : store.find? (fun r => decide (r.uuid = it.uuid)) with
      _ | y
    · exact absurd huuid (find?_uuid_eq_none.mp hfind s hs)
    · have hsql : upsert_sql store it =
          store.map (fun r =>
            if r.uuid = it.uuid ∧ tsLt r.updated_at it.updated_at then
              { it with deleted := 0 }
            else r) := by
        rw [upsert_sql, hfind]
      constructor
      · rw [hstep, hsql]
        exact List.mem_map.mpr ⟨s, hs,
          by rw [if_pos ⟨huuid, (tsLt_iff _ _).mpr hlt⟩]⟩
      · rw [hstep, hsql]
        intro hmem
        rcases List.mem_map.mp hmem with ⟨r, _, hrs⟩
        by_cases hc : r.uuid = it.uuid ∧ tsLt r.updated_at it.updated_at
        · rw [if_pos hc] at hrs
          have : s.updated_at = it.updated_at := by rw [← hrs]
          exact absurd hlt (this ▸ lt_irrefl it.updated_at)
        · rw [if_neg hc] at hrs
          rw [hrs] at hc
          exact hc ⟨huuid, (tsLt_iff _ _).mpr hlt⟩

/-- Witness for C10: a fresh non-tombstone insert stores `deleted = 0`,
and a newer non-deleted record revives a tombstoned local row. -/
theorem upsert_nondeleted_clears_tombstone_witness :
    upsert_many [mkRow "u" "a" 0] [] =
      (1, [{ mkRow "u" "a" 0 with deleted := 0 }])
    ∧ { mkRow "u" "b" 0 with deleted := 0 } ∈
        (upsert_many [mkRow "u" "b" 0] [mkRow "u" "a" 1]).2 :=
  ⟨((upsert_nondeleted_clears_tombstone (mkRow "u" "a" 0) []
        (by decide)).2.1 rfl),
   ((upsert_nondeleted_clears_tombstone (mkRow "u" "b" 0) [mkRow "u" "a" 1]
        (by decide)).2.2 (mkRow "u" "a" 1) (by decide) rfl
        (str_lt_of_toList (by decide))).1⟩

/-- A non-tombstone record whose identity exists in a unique-identity
store and whose timestamp is not strictly greater leaves the upsert
statement a no-op. -/
theorem upsert_sql_stale {it s : SessionRecord} {S : List SessionRecord}
    (huniq : uuidUnique S) (hs : s ∈ S) (hsu : s.uuid = it.uuid)
    (hge : ¬ s.updated_at < it.updated_at) :
    upsert_sql S it = S := by
  rcases hfind : S.find? (fun r => decide (r.uuid = it.uuid)) with _ | y
  · exact absurd hsu (find?_uuid_eq_none.mp hfind s hs)
  · rw [upsert_sql, hfind]
    conv_rhs => rw [← List.map_id S]
    apply List.map_congr_left
    intro r hr
    rw [if_neg]
    · rfl
    · rintro ⟨h1, h2⟩
      have he : r = s := uuidUnique_eq_of_mem huniq hr hs (h1.trans hsu.symm)
      rw [he] at h2
      exact hge ((tsLt_iff _ _).mp h2)

/-- A non-tombstone record strictly newer than the matching row of a
unique-identity store overwrites that row with the incoming fields
(`deleted` hard-coded to 0) and leaves every other row unchanged. -/
theorem upsert_sql_overwrite {it s : SessionRecord} {S : List SessionRecord}
    (huniq : uuidUnique S) (hs : s ∈ S) (hsu : s.uuid = it.uuid)
    (hlt : s.updated_at < it.updated_at) :
    upsert_sql S it = S.map (fun r =>
      if r.uuid = it.uuid then { it with deleted := 0 } else r) := by
  rcases hfind : S.find? (fun r => decide (r.uuid = it.uuid)) with _ | y
  · exact absurd hsu (find?_uuid_eq_none.mp hfind s hs)
  · rw [upsert_sql, hfind]
    apply List.map_congr_left
    intro r hr
    by_cases h1 : r.uuid = it.uuid
    · have he : r = s := uuidUnique_eq_of_mem huniq hr hs (h1.trans hsu.symm)
      rw [if_pos ⟨h1, by rw [he]; exact (tsLt_iff _ _).mpr hlt⟩, if_pos h1]
    · rw [if_neg (fun hc => h1 hc.1), if_neg h1]

/-- Replacing the rows of identity `u` by a record of identity `u`
keeps the identity column unique. -/
theorem uuidUnique_map_replace {S : List SessionRecord} {u : String}
    {x : SessionRecord} (hx : x.uuid = u) (huniq : uuidUnique S) :
    uuidUnique (S.map (fun r => if r.uuid = u then x else r)) := by
  rw [uuidUnique, List.map_map]
  have hfun : ((fun r : SessionRecord => r.uuid) ∘
      fun r => if r.uuid = u then x else r) =
        fun r : SessionRecord => r.uuid := by
    funext r
    by_cases h : r.uuid = u
    · simp [Function.comp, h, hx]
    · simp [Function.comp, h]
  rw [hfun]
  exact huniq

/-- The store produced by the `upsert_many` loop does not depend on the
count accumulator. -/
theorem upsert_many_snd_aux (items : List SessionRecord) :
    ∀ (n : Nat) (S : List SessionRecord),
      (items.foldl upsert_many_step (n, S)).2 =
        (items.foldl upsert_many_step (0, S)).2 := by
  induction items with
  | nil => intro n S; rfl
  | cons it its ih =>
      intro n S
      rw [List.foldl_cons, List.foldl_cons]
      by_cases h : it.deleted = 1
      · simp only [upsert_many_step, if_pos h]
        rw [ih n _, ih 0 _]
      · simp only [upsert_many_step, if_neg h]
        rw [ih (n + 1) _, ih 1 _]

/-- C2: last-writer-wins in `upsert_many`.  First part: for every
batch and every non-tombstone record in it, taken at its position in
the batch (an arbitrary prefix `pre` has already been applied), if the
record's identity exists in the store at that moment — unique, as the
table's unique index guarantees — then applying the record overwrites
the stored row with the incoming fields exactly when the incoming
`updated_at` is strictly greater; on an equal or smaller timestamp the
store is unchanged.  Second part: inside any batch, a non-tombstone
record acts on the store exactly through its upsert statement, whatever
follows it in the batch.  Third part: two same-identity records with
different timestamps in the same batch leave the store holding the
later-timestamped record's content regardless of their order, whether
the identity is absent locally or every local copy is older. -/
theorem upsert_last_writer_wins :
    (∀ (pre : List SessionRecord) (it s : SessionRecord)
        (store : List SessionRecord),
       ¬ it.deleted = 1 →
       uuidUnique (upsert_many pre store).2 →
       s ∈ (upsert_many pre store).2 → s.uuid = it.uuid →
       ((¬ s.updated_at < it.updated_at →
           (upsert_many (pre ++ [it]) store).2 = (upsert_many pre store).2)
        ∧ (s.updated_at < it.updated_at →
           (upsert_many (pre ++ [it]) store).2 =
             ((upsert_many pre store).2).map (fun r =>
               if r.uuid = it.uuid then { it with deleted := 0 } else r))))
    ∧ (∀ (pre post : List SessionRecord) (it : SessionRecord)
        (store : List SessionRecord),
       ¬ it.deleted = 1 →
       (upsert_many (pre ++ it :: post) store).2 =
         (upsert_many post (upsert_sql (upsert_many pre store).2 it)).2)
    ∧ (∀ (r1 r2 : SessionRecord) (store : List SessionRecord),
        r1.uuid = r2.uuid → ¬ r1.deleted = 1 → ¬ r2.deleted = 1 →
        r1.updated_at < r2.updated_at →
        uuidUnique store →
        (∀ s ∈ store, s.uuid = r1.uuid → s.updated_at < r1.updated_at) →
        ((upsert_many [r1, r2] store).2 = (upsert_many [r2, r1] store).2
         ∧ { r2 with deleted := 0 } ∈ (upsert_many [r1, r2] store).2
         ∧ (∀ x ∈ (upsert_many [r1, r2] store).2,
             x.uuid = r2.uuid → x = { r2 with deleted := 0 })
         ∧ (∀ x ∈ store, x.uuid ≠ r2.uuid →
             x ∈ (upsert_many [r1, r2] store).2))) := by
  refine ⟨?_, ?_, ?_⟩
  · intro pre it s store hnt huniq hs hsu
    have hdec : (upsert_many (pre ++ [it]) store).2 =
        upsert_sql (upsert_many pre store).2 it := by
      rw [upsert_many, List.foldl_append, List.foldl_cons, List.foldl_nil]
      simp only [upsert_many_step, if_neg hnt]
      rfl
    constructor
    · intro hge
      rw [hdec]
      exact upsert_sql_stale huniq hs hsu hge
    · intro hlt
      rw [hdec]
      exact upsert_sql_overwrite huniq hs hsu hlt
  · intro pre post it store hnt
    rw [upsert_many, List.foldl_append, List.foldl_cons]
    simp only [upsert_many_step, if_neg hnt]
    exact upsert_many_snd_aux post _ _
  · intro r1 r2 store huu hn1 hn2 hlt huniq hold
    have hsteps12 : (upsert_many [r1, r2] store).2 =
        upsert_sql (upsert_sql store r1) r2 := by
      rw [upsert_many, List.foldl_cons, List.foldl_cons, List.foldl_nil]
      simp only [upsert_many_step, if_neg hn1, if_neg hn2]
    have hsteps21 : (upsert_many [r2, r1] store).2 =
        upsert_sql (upsert_sql store r2) r1 := by
      rw [upsert_many, List.foldl_cons, List.foldl_cons, List.foldl_nil]
      simp only [upsert_many_step, if_neg hn1, if_neg hn2]
    rcases hfind : store.find? (fun r => decide (r.uuid = r1.uuid)) with _ | y
    · -- identity absent: both orders append the later record
      have hall : ∀ r ∈ store, r.uuid ≠ r1.uuid := find?_uuid_eq_none.mp hfind
      have hfind2 : store.find? (fun r => decide (r.uuid = r2.uuid)) = none := by
        apply find?_uuid_eq_none.mpr
        intro r hr
        rw [← huu]
        exact hall r hr
      have h1a : upsert_sql store r1 = store ++ [{ r1 with deleted := 0 }] := by
        rw [upsert_sql, hfind]
      have hfindb : (store ++ [{ r1 with deleted := 0 }]).find?
          (fun r => decide (r.uuid = r2.uuid)) =
            some { r1 with deleted := 0 } := by
        rw [List.find?_append, hfind2]
        simp [huu]
      have h12 : upsert_sql (upsert_sql store r1) r2 =
          store ++ [{ r2 with deleted := 0 }] := by
        rw [h1a, upsert_sql, hfindb, List.map_append]
        have hmap1 : store.map (fun r =>
            if r.uuid = r2.uuid ∧ tsLt r.updated_at r2.updated_at then
              { r2 with deleted := 0 }
            else r) = store := by
          conv_rhs => rw [← List.map_id store]
          apply List.map_congr_left
          intro r hr
          rw [if_neg (fun hc => hall r hr (hc.1.trans huu.symm))]
          rfl
        have hmap2 : [{ r1 with deleted := 0 }].map (fun r =>
            if r.uuid = r2.uuid ∧ tsLt r.updated_at r2.updated_at then
              { r2 with deleted := 0 }
            else r) = [{ r2 with deleted := 0 }] := by
          rw [List.map_singleton,
            if_pos ⟨huu, (tsLt_iff _ _).mpr hlt⟩]
        rw [hmap1, hmap2]
      have h2a : upsert_sql store r2 = store ++ [{ r2 with deleted := 0 }] := by
        rw [upsert_sql, hfind2]
      have hfindc : (store ++ [{ r2 with deleted := 0 }]).find?
          (fun r => decide (r.uuid = r1.uuid)) =
            some { r2 with deleted := 0 } := by
        rw [List.find?_append, hfind]
        simp [huu]
      have h21 : upsert_sql (upsert_sql store r2) r1 =
          store ++ [{ r2 with deleted := 0 }] := by
        rw [h2a, upsert_sql, hfindc, List.map_append]
        have hmap1 : store.map (fun r =>
            if r.uuid = r1.uuid ∧ tsLt r.updated_at r1.updated_at then
              { r1 with deleted := 0 }
            else r) = store := by
          conv_rhs => rw [← List.map_id store]
          apply List.map_congr_left
          intro r hr
          rw [if_neg (fun hc => hall r hr hc.1)]
          rfl
        have hmap2 : [{ r2 with deleted := 0 }].map (fun r =>
            if r.uuid = r1.uuid ∧ tsLt r.updated_at r1.updated_at then
              { r1 with deleted := 0 }
            else r) = [{ r2 with deleted := 0 }] := by
          rw [List.map_singleton, if_neg]
          rintro ⟨-, hc⟩
          exact lt_asymm hlt ((tsLt_iff _ _).mp hc)
        rw [hmap1, hmap2]
      refine ⟨by rw [hsteps12, hsteps21, h12, h21], ?_, ?_, ?_⟩
      · rw [hsteps12, h12]
        exact List.mem_append.mpr (Or.inr (List.mem_singleton.mpr rfl))
      · intro x hx hxu
        rw [hsteps12, h12] at hx
        rcases List.mem_append.mp hx with hxs | hxr
        · exact absurd (hxu.trans huu.symm) (hall x hxs)
        · exact List.mem_singleton.mp hxr
      · intro x hx _
        rw [hsteps12, h12]
        exact List.mem_append.mpr (Or.inl hx)
    · -- identity present: every local copy is strictly older
      have hy : y ∈ store := List.mem_of_find?_eq_some hfind
      have hyu : y.uuid = r1.uuid := by
        have hp := List.find?_some hfind
        rwa [decide_eq_true_eq] at hp
      have hylt : y.updated_at < r1.updated_at := hold y hy hyu
      have hS1 : upsert_sql store r1 = store.map (fun r =>
          if r.uuid = r1.uuid then { r1 with deleted := 0 } else r) :=
        upsert_sql_overwrite huniq hy hyu hylt
      have hu1 : uuidUnique (store.map (fun r =>
          if r.uuid = r1.uuid then { r1 with deleted := 0 } else r)) :=
        uuidUnique_map_replace rfl huniq
      have hr1mem : ({ r1 with deleted := 0 } : SessionRecord) ∈
          store.map (fun r =>
            if r.uuid = r1.uuid then { r1 with deleted := 0 } else r) :=
        List.mem_map.mpr ⟨y, hy, by rw [if_pos hyu]⟩
      have h12 : upsert_sql (upsert_sql store r1) r2 = store.map (fun r =>
          if r.uuid = r2.uuid then { r2 with deleted := 0 } else r) := by
        rw [hS1, upsert_sql_overwrite hu1 hr1mem
          (show ({ r1 with deleted := 0 } : SessionRecord).uuid = r2.uuid
            from huu)
          (show ({ r1 with deleted := 0 } : SessionRecord).updated_at <
              r2.updated_at from hlt), List.map_map]
        apply List.map_congr_left
        intro r hr
        by_cases h1 : r.uuid = r1.uuid
        · simp only [Function.comp]
          rw [if_pos h1,
            if_pos (show ({ r1 with deleted := 0 } :
              SessionRecord).uuid = r2.uuid from huu),
            if_pos (h1.trans huu)]
        · simp only [Function.comp]
          rw [if_neg h1]
      have hS2 : upsert_sql store r2 = store.map (fun r =>
          if r.uuid = r2.uuid then { r2 with deleted := 0 } else r) :=
        upsert_sql_overwrite huniq hy (hyu.trans huu) (lt_trans hylt hlt)
      have hu2 : uuidUnique (store.map (fun r =>
          if r.uuid = r2.uuid then { r2 with deleted := 0 } else r)) :=
        uuidUnique_map_replace rfl huniq
      have hr2mem : ({ r2 with deleted := 0 } : SessionRecord) ∈
          store.map (fun r =>
            if r.uuid = r2.uuid then { r2 with deleted := 0 } else r) :=
        List.mem_map.mpr ⟨y, hy, by rw [if_pos (hyu.trans huu)]⟩
      have h21 : upsert_sql (upsert_sql store r2) r1 = store.map (fun r =>
          if r.uuid = r2.uuid then { r2 with deleted := 0 } else r) := by
        rw [hS2]
        exact upsert_sql_stale hu2 hr2mem
          (show ({ r2 with deleted := 0 } : SessionRecord).uuid = r1.uuid
            from huu.symm)
          (show ¬ ({ r2 with deleted := 0 } : SessionRecord).updated_at <
              r1.updated_at from lt_asymm hlt)
      refine ⟨by rw [hsteps12, hsteps21, h12, h21], ?_, ?_, ?_⟩
      · rw [hsteps12, h12]
        exact List.mem_map.mpr ⟨y, hy, by rw [if_pos (hyu.trans huu)]⟩
      · intro x hx hxu
        rw [hsteps12, h12] at hx
        rcases List.mem_map.mp hx with ⟨r, hr, hrx⟩
        by_cases h1 : r.uuid = r2.uuid
        · rw [if_pos h1] at hrx
          exact hrx.symm
        · rw [if_neg h1] at hrx
          rw [hrx] at h1
          exact absurd hxu h1
      · intro x hx hxu
        rw [hsteps12, h12]
        exact List.mem_map.mpr ⟨x, hx, by rw [if_neg hxu]⟩

/-- Witness for C2: a stale record arriving at a store that already
holds its identity (timestamp `"b"`, incoming `"a"`) leaves the store
unchanged; and the spec's concrete scenario over a store already
holding an older copy of identity `u` (timestamp `"a"`, batch
timestamps `"b" < "c"`, both orders) ends with the later-timestamped
content stored. -/
theorem upsert_last_writer_wins_witness :
    (upsert_many [mkRow "u" "a" 0] [mkRow "u" "b" 0]).2 = [mkRow "u" "b" 0]
    ∧ (upsert_many [mkRow "u" "b" 0, mkRow "u" "c" 0] [mkRow "u" "a" 0]).2 =
        (upsert_many [mkRow "u" "c" 0, mkRow "u" "b" 0] [mkRow "u" "a" 0]).2
    ∧ { mkRow "u" "c" 0 with deleted := 0 } ∈
        (upsert_many [mkRow "u" "b" 0, mkRow "u" "c" 0]
          [mkRow "u" "a" 0]).2 :=
  ⟨(upsert_last_writer_wins.1 [] (mkRow "u" "a" 0) (mkRow "u" "b" 0)
      [mkRow "u" "b" 0] (by decide) (by decide) (by decide) rfl).1
      (fun hc => absurd (String.lt_iff_toList_lt.mp hc) (by decide)),
   (upsert_last_writer_wins.2.2 (mkRow "u" "b" 0) (mkRow "u" "c" 0)
      [mkRow "u" "a" 0] rfl (by decide) (by decide)
      (str_lt_of_toList (by decide)) (by decide)
      (fun s hs hsu => by
        rw [List.mem_singleton] at hs
        rw [hs]
        exact str_lt_of_toList (by decide))).1,
   (upsert_last_writer_wins.2.2 (mkRow "u" "b" 0) (mkRow "u" "c" 0)
      [mkRow "u" "a" 0] rfl (by decide) (by decide)
      (str_lt_of_toList (by decide)) (by decide)
      (fun s hs hsu => by
        rw [List.mem_singleton] at hs
        rw [hs]
        exact str_lt_of_toList (by decide))).2.1⟩

/-- C1 (amended): in the engine variants of `src/sync_screen.py` and
`src/ui/sync_screen.py` every invocation runs the push phase before the
pull phase: no pull request is ever issued before a push request. -/
theorem sync_screen_push_before_pull (t : Transport) (db : DB) :
    pushesPrecedePulls (sync_now t db).trace = true := by
  by_cases he : local_changes_since db.last_push db.sessions = []
  · cases hq : t.pullResp with
    | none =>
        simp only [sync_now, pushPhase_of_empty he, pullPhase_of_fail hq]
        rfl
    | some items =>
        simp only [sync_now, pushPhase_of_empty he, pullPhase_of_ok hq]
        rfl
  · cases hp : t.pushResp with
    | none =>
        simp only [sync_now, pushPhase_of_fail he hp]
        rfl
    | some n =>
        cases hq : t.pullResp with
        | none =>
            simp only [sync_now, pushPhase_of_ok he hp,
              pullPhase_of_fail hq]
            rfl
        | some items =>
            simp only [sync_now, pushPhase_of_ok he hp,
              pullPhase_of_ok hq]
            rfl

/-- Counterexample for C1 as stated: the variant in `src/sync.py`
issues its pull request before its push request, so push-before-pull
does not hold for every variant of the engine in the repository. -/
theorem sync_py_pull_before_push :
    (sync_now_pull_first tOk dbOne).trace =
      [SyncEvent.pullReq, SyncEvent.pushReq]
    ∧ pushesPrecedePulls (sync_now_pull_first tOk dbOne).trace = false :=
  ⟨rfl, rfl⟩

/-- C4: a failing phase raises and leaves its own cursor untouched,
while a cursor advanced by an earlier successful phase of the same pass
keeps its advanced value — for both engine variants.  Conjuncts: a push
failure in the push-first engine leaves the whole store untouched; a
pull failure in the push-first engine leaves `last_pull` and the
sessions untouched and `last_push` at whatever the push phase set; a
pull failure in the pull-first engine leaves the whole store untouched;
a push failure after a successful pull in the pull-first engine leaves
`last_push` untouched and `last_pull` at the pull phase's value. -/
theorem sync_failure_leaves_cursors (t : Transport) (db : DB) :
    (local_changes_since db.last_push db.sessions ≠ [] →
      t.pushResp = none →
      (sync_now t db).result = none ∧ (sync_now t db).db = db)
    ∧ (t.pullResp = none →
      (sync_now t db).result = none
      ∧ (sync_now t db).db.last_pull = db.last_pull
      ∧ (sync_now t db).db.sessions = db.sessions
      ∧ (sync_now t db).db.last_push = (pushPhase t db).db.last_push)
    ∧ (t.pullResp = none →
      (sync_now_pull_first t db).result = none
      ∧ (sync_now_pull_first t db).db = db)
    ∧ (∀ items, t.pullResp = some items →
      local_changes_since (pullPhase t db).db.last_push
          (pullPhase t db).db.sessions ≠ [] →
      t.pushResp = none →
      (sync_now_pull_first t db).result = none
      ∧ (sync_now_pull_first t db).db.last_push = db.last_push
      ∧ (sync_now_pull_first t db).db.last_pull =
          (pullPhase t db).db.last_pull) := by
  refine ⟨?_, ?_, ?_, ?_⟩
  · intro hne hp
    simp only [sync_now, pushPhase_of_fail hne hp]
    exact ⟨by trivial, by trivial⟩
  · intro hq
    by_cases he : local_changes_since db.last_push db.sessions = []
    · simp only [sync_now, pushPhase_of_empty he, pullPhase_of_fail hq]
      exact ⟨by trivial, by trivial, by trivial, by trivial⟩
    · cases hp : t.pushResp with
      | none =>
          simp only [sync_now, pushPhase_of_fail he hp]
          exact ⟨by trivial, by trivial, by trivial, by trivial⟩
      | some n =>
          simp only [sync_now, pushPhase_of_ok he hp,
            pullPhase_of_fail hq]
          exact ⟨by trivial, by trivial, by trivial, by trivial⟩
  · intro hq
    simp only [sync_now_pull_first, pullPhase_of_fail hq]
    exact ⟨by trivial, by trivial⟩
  · intro items hq hne hp
    have hpp := @pullPhase_of_ok t db items hq
    simp only [hpp] at hne
    simp only [sync_now_pull_first, hpp]
    rw [pushPhase_of_fail hne hp]
    refine ⟨by trivial, ?_, by trivial⟩
    by_cases hi : items = []
    · simp only [if_pos hi]
    · simp only [if_neg hi]

/-- Witness for C4: on a store with one pending change and a transport
where the POST fails, the pass raises and the store (both cursors and
the sessions) is untouched. -/
theorem sync_failure_leaves_cursors_witness :
    (sync_now tFail dbOne).result = none
    ∧ (sync_now tFail dbOne).db = dbOne :=
  (sync_failure_leaves_cursors tFail dbOne).1 (by decide) rfl

/-- A store with no pending changes pushes nothing: the push phase is
skipped, the full pass issues no push request and leaves `last_push`
unchanged. -/
theorem push_no_reissue {t2 : Transport} {db1 : DB}
    (h : local_changes_since db1.last_push db1.sessions = []) :
    pushPhase t2 db1 = { db := db1, result := some 0, trace := [] }
    ∧ SyncEvent.pushReq ∉ (sync_now t2 db1).trace
    ∧ (sync_now t2 db1).db.last_push = db1.last_push := by
  refine ⟨pushPhase_of_empty h, ?_, ?_⟩
  · simp only [sync_now, pushPhase_of_empty h]
    cases hq : t2.pullResp with
    | none =>
        simp only [pullPhase_of_fail hq]
        decide
    | some items =>
        simp only [pullPhase_of_ok hq]
        decide
  · simp only [sync_now, pushPhase_of_empty h]
    cases hq : t2.pullResp with
    | none =>
        simp only [pullPhase_of_fail hq]
        try trivial
    | some items =>
        simp only [pullPhase_of_ok hq]
        by_cases hi : items = []
        · simp only [if_pos hi]
          try trivial
        · simp only [if_neg hi]
          try trivial

/-- C5: after a push phase that succeeded on a non-empty batch and
advanced `last_push` to the maximum `updated_at` of the pushed items,
`local_changes_since` at the new cursor returns none of the pushed
items — indeed it is empty — so an immediately repeated pass computes
an empty push batch, issues no push request, and leaves `last_push`
unchanged. -/
theorem push_cursor_resumable (t t2 : Transport) (db : DB) (n : Nat)
    (hne : local_changes_since db.last_push db.sessions ≠ [])
    (hp : t.pushResp = some n) :
    (∀ r ∈ local_changes_since db.last_push db.sessions,
        r ∉ local_changes_since (pushPhase t db).db.last_push
              (pushPhase t db).db.sessions)
    ∧ local_changes_since (pushPhase t db).db.last_push
        (pushPhase t db).db.sessions = []
    ∧ pushPhase t2 (pushPhase t db).db =
        { db := (pushPhase t db).db, result := some 0, trace := [] }
    ∧ SyncEvent.pushReq ∉ (sync_now t2 (pushPhase t db).db).trace
    ∧ (sync_now t2 (pushPhase t db).db).db.last_push =
        (pushPhase t db).db.last_push := by
  have hkey : local_changes_since
      (maxUpdated (local_changes_since db.last_push db.sessions))
      db.sessions = [] := by
    rw [local_changes_since]
    apply List.filter_eq_nil_iff.mpr
    intro r hr
    rw [decide_eq_true_eq]
    intro hcon
    have hmax := (tsLt_iff _ _).mp hcon
    obtain ⟨e, he⟩ :=
      List.exists_mem_of_ne_nil
        (local_changes_since db.last_push db.sessions) hne
    have h1 : db.last_push < e.updated_at := (mem_local_changes_since.mp he).2
    have h2 := mem_le_maxUpdated he
    have h3 : db.last_push < r.updated_at :=
      lt_of_lt_of_le h1 (le_trans h2 (le_of_lt hmax))
    have hrL : r ∈ local_changes_since db.last_push db.sessions :=
      mem_local_changes_since.mpr ⟨hr, h3⟩
    exact absurd hmax (not_lt_of_le (mem_le_maxUpdated hrL))
  have h1 := @push_no_reissue t2
      { db with
        last_push :=
          maxUpdated (local_changes_since db.last_push db.sessions) } hkey
  simp only [pushPhase_of_ok hne hp]
  refine ⟨?_, hkey, h1.1, h1.2.1, h1.2.2⟩
  intro r hr hmem
  rw [hkey] at hmem
  exact List.not_mem_nil r hmem

/-- Witness for C5 on a concrete store: after the successful push the
repeated pass has nothing to push and issues no push request. -/
theorem push_cursor_resumable_witness :
    local_changes_since (pushPhase tOk dbOne).db.last_push
        (pushPhase tOk dbOne).db.sessions = []
    ∧ SyncEvent.pushReq ∉ (sync_now tOk (pushPhase tOk dbOne).db).trace :=
  ⟨(push_cursor_resumable tOk tOk dbOne 1 (by decide) rfl).2.1,
   (push_cursor_resumable tOk tOk dbOne 1 (by decide) rfl).2.2.2.1⟩

/-- Counterexample for C6 as stated: with `last_pull = "b"` and a pull
response holding one record with `updated_at = "a"`, the pass completes
successfully yet `last_pull` moves backwards to `"a"` — the code sets
`last_pull` to the maximum `updated_at` of the received items whatever
that value is, so cursor monotonicity fails for arbitrary transport
responses. -/
theorem sync_pull_cursor_can_regress :
    (sync_now tC6 dbC6).result ≠ none
    ∧ (sync_now tC6 dbC6).db.last_pull < dbC6.last_pull := by
  constructor
  · decide
  · have h1 : (sync_now tC6 dbC6).db.last_pull = "a" := rfl
    rw [h1]
    exact str_lt_of_toList (by decide)

/-- C6 (amended): after a successful pass, `last_push` is always ≥ its
pre-pass value; `last_pull` is ≥ its pre-pass value provided every
record in the pull response carries `updated_at ≥` the pre-pass
`last_pull` (as a server answering "changes since `last_pull`" does).
Without that proviso the pull cursor can regress. -/
theorem sync_cursors_monotone (t : Transport) (db : DB)
    (hres : (sync_now t db).result ≠ none)
    (hpull : ∀ items, t.pullResp = some items →
        ∀ r ∈ items, db.last_pull ≤ r.updated_at) :
    db.last_push ≤ (sync_now t db).db.last_push
    ∧ db.last_pull ≤ (sync_now t db).db.last_pull := by
  by_cases he : local_changes_since db.last_push db.sessions = []
  · cases hq : t.pullResp with
    | none =>
        exfalso
        apply hres
        simp only [sync_now, pushPhase_of_empty he, pullPhase_of_fail hq]
    | some items =>
        simp only [sync_now, pushPhase_of_empty he, pullPhase_of_ok hq]
        by_cases hi : items = []
        · simp only [if_pos hi]
          exact ⟨le_refl _, le_refl _⟩
        · simp only [if_neg hi]
          refine ⟨le_refl _, ?_⟩
          obtain ⟨e, hef⟩ := List.exists_mem_of_ne_nil items hi
          exact le_trans (hpull items hq e hef) (mem_le_maxUpdated hef)
  · cases hp : t.pushResp with
    | none =>
        exfalso
        apply hres
        simp only [sync_now, pushPhase_of_fail he hp]
    | some n =>
        have hpushle : db.last_push ≤
            maxUpdated (local_changes_since db.last_push db.sessions) := by
          obtain ⟨e, hef⟩ := List.exists_mem_of_ne_nil
            (local_changes_since db.last_push db.sessions) he
          exact le_trans (le_of_lt (mem_local_changes_since.mp hef).2)
            (mem_le_maxUpdated hef)
        cases hq : t.pullResp with
        | none =>
            exfalso
            apply hres
            simp only [sync_now, pushPhase_of_ok he hp,
              pullPhase_of_fail hq]
        | some items =>
            simp only [sync_now, pushPhase_of_ok he hp,
              pullPhase_of_ok hq]
            by_cases hi : items = []
            · simp only [if_pos hi]
              exact ⟨hpushle, le_refl _⟩
            · simp only [if_neg hi]
              refine ⟨hpushle, ?_⟩
              obtain ⟨e, hef⟩ := List.exists_mem_of_ne_nil items hi
              exact le_trans (hpull items hq e hef) (mem_le_maxUpdated hef)

/-- Witness for C6 (amended): a successful pass over `dbOne` with a
well-behaved transport leaves both cursors at least at their pre-pass
values. -/
theorem sync_cursors_monotone_witness :
    dbOne.last_push ≤ (sync_now tOk dbOne).db.last_push
    ∧ dbOne.last_pull ≤ (sync_now tOk dbOne).db.last_pull :=
  sync_cursors_monotone tOk dbOne (by decide)
    (fun items h => by
      have h2 : some ([] : List SessionRecord) = some items := h
      injection h2 with h3
      intro r hr
      rw [← h3] at hr
      exact absurd hr (List.not_mem_nil r))
